import Mathlib

/-!
Verification of the RBAC layer (`app/rbac.py`) and the lightweight schema
migration routine (`app/__init__.py`, `ensure_schema`) of the erp-V1
repository, as a shallow embedding in Lean 4.

Conventions of the embedding:
* Python strings are `String`; `str.strip()` is `py_strip` (character-level,
  structural recursion so that everything reduces in the kernel).
* Python `dict` literals used as lookup tables become association lists
  (`List (String × _)`) queried with `List.find?`; all keys are distinct,
  so this matches dict semantics.
* `getattr(obj, "has_perm", None)` followed by a `callable` test becomes an
  `Option (String → Bool)` field.
* Flask `abort(401)` / `abort(403)` and a normal return become
  `Except Nat α` (`.error code` for an abort, `.ok` for the view result).
* The database is an explicit record of lists of rows; SQLAlchemy queries
  become list operations on it. `role.permissions` is represented by the
  list of permission codes of the attached `Permission` objects.
-/

/-! ## Python string primitives -/

/-- ASCII whitespace recognised by Python's `str.strip()` (the code only ever
strips ASCII role/permission strings). -/
def is_space (c : Char) : Bool :=
  c = ' ' || c = '\t' || c = '\n' || c = '\r' || c = '\x0b' || c = '\x0c'

/-- Drop leading whitespace characters. -/
def drop_space : List Char → List Char
  | [] => []
  | c :: cs => if is_space c then drop_space cs else c :: cs

/-- Python `s.strip()`: remove leading and trailing whitespace. -/
def py_strip (s : String) : String :=
  String.mk ((drop_space ((drop_space s.data).reverse)).reverse)

/-- Characters of `s` before the first `':'` (all of `s` when there is no
colon): Python `s.split(":", 1)[0]`, and also `s` itself when `":" not in s`. -/
def before_colon : List Char → List Char
  | [] => []
  | c :: cs => if c = ':' then [] else c :: before_colon cs

/-- Python `str.capitalize()`: first character upper-cased, the rest
lower-cased. -/
def py_capitalize (s : String) : String :=
  match s.data with
  | [] => ""
  | c :: cs => String.mk (c.toUpper :: cs.map Char.toLower)

/-! ## `app/rbac.py`: canonical permissions and role templates -/

/-- `DEFAULT_PERMS`: the canonical `(code, label)` permission pairs. -/
def DEFAULT_PERMS : List (String × String) := [
  ("dashboard:view", "Voir le dashboard"),
  ("subventions:view", "Voir les subventions"),
  ("subventions:edit", "Créer/éditer les subventions"),
  ("subventions:delete", "Supprimer les subventions"),
  ("depenses:view", "Voir les dépenses"),
  ("depenses:create", "Créer des dépenses"),
  ("depenses:delete", "Supprimer les dépenses"),
  ("budget:delete", "Supprimer une ligne budgétaire"),
  ("projets:view", "Voir les projets"),
  ("projets:edit", "Créer/éditer les projets"),
  ("projets:delete", "Supprimer les projets"),
  ("participants:view", "Voir les participants"),
  ("participants:edit", "Créer/éditer les participants"),
  ("participants:delete", "Supprimer les participants"),
  ("inventaire:view", "Voir l\x27inventaire"),
  ("inventaire:edit", "Créer/éditer l\x27inventaire"),
  ("emargement:view", "Voir l\x27émargement"),
  ("pedagogie:view", "Voir la pédagogie"),
  ("stats:view", "Voir les stats (secteur)"),
  ("stats:view_all", "Voir les stats (tous secteurs)"),
  ("statsimpact:view", "Voir les données ateliers (secteur)"),
  ("statsimpact:view_all", "Voir les données ateliers (tous secteurs)"),
  ("controle:view", "Accéder au contrôle"),
  ("bilans:view", "Voir les bilans"),
  ("activite:delete", "Supprimer une activité"),
  ("activite:purge", "Purger des activités"),
  ("ateliers:view", "Voir les ateliers"),
  ("ateliers:sync", "Synchroniser les ateliers"),
  ("admin:users", "Gérer les utilisateurs"),
  ("admin:rbac", "Gérer les droits (RBAC)")
]

/-- `ROLE_TEMPLATES`: role code mapped to the permission codes of its
`"perms"` entry, in source order (`direction` gets every `DEFAULT_PERMS`
code). -/
def ROLE_TEMPLATES : List (String × List String) := [
  ("admin_tech", [
    "dashboard:view",
    "admin:users",
    "admin:rbac"
  ]),
  ("direction", DEFAULT_PERMS.map Prod.fst),
  ("finance", [
    "dashboard:view",
    "subventions:view",
    "subventions:edit",
    "subventions:delete",
    "depenses:view",
    "depenses:create",
    "depenses:delete",
    "projets:view",
    "projets:edit",
    "projets:delete",
    "participants:view",
    "inventaire:view",
    "emargement:view",
    "stats:view",
    "bilans:view",
    "ateliers:view",
    "ateliers:sync"
  ]),
  ("responsable_secteur", [
    "dashboard:view",
    "subventions:view",
    "depenses:view",
    "depenses:create",
    "projets:view",
    "projets:edit",
    "participants:view",
    "participants:edit",
    "inventaire:view",
    "emargement:view",
    "pedagogie:view",
    "stats:view",
    "bilans:view",
    "ateliers:view",
    "ateliers:sync"
  ])
]

/-- The module-to-category dict inside `_category_from_code`. -/
def category_mapping : List (String × String) := [
  ("dashboard", "Dashboard"),
  ("subventions", "Subventions"),
  ("depenses", "Dépenses"),
  ("budget", "Budget"),
  ("projets", "Projets"),
  ("participants", "Participants"),
  ("inventaire", "Inventaire"),
  ("emargement", "Émargement"),
  ("pedagogie", "Pédagogie"),
  ("stats", "Stats"),
  ("statsimpact", "Stats impact"),
  ("bilans", "Bilans"),
  ("ateliers", "Ateliers"),
  ("admin", "Admin")
]

/-- `_category_from_code`: the stripped text before the first colon looked up
in the category mapping, falling back to Python capitalisation. -/
def _category_from_code (code : String) : String :=
  let module := py_strip (String.mk (before_colon code.data))
  match category_mapping.find? (fun kv => kv.1 = module) with
  | some kv => kv.2
  | none => py_capitalize module

/-! ## `app/rbac.py`: database model and `bootstrap_rbac` -/

/-- One row of the `Permission` table. -/
structure Permission where
  code : String
  label : String
  category : String
deriving DecidableEq

/-- One row of the `Role` table; `permissions` holds the codes of the
attached `Permission` objects. -/
structure Role where
  code : String
  label : String
  permissions : List String
deriving DecidableEq

/-- One `User` row as `bootstrap_rbac` sees it: the legacy `role` column
(`None` is possible), whether the object has a `roles` attribute, and the
codes of the RBAC roles currently attached. -/
structure PyUser where
  role : Option String
  has_roles_attr : Bool
  roles : List String
deriving DecidableEq

/-- The database state touched by `bootstrap_rbac`. -/
structure DBState where
  perms : List Permission
  roles : List Role
  users : List PyUser
deriving DecidableEq

/-- The `Permission` row `bootstrap_rbac` wants for a `DEFAULT_PERMS` pair. -/
def canonical_perm (cl : String × String) : Permission :=
  { code := cl.1, label := cl.2, category := _category_from_code cl.1 }

/-- One iteration of the `for code, label in DEFAULT_PERMS` loop: when the
code is among the snapshot `existing` codes, the row is updated in place
(label and category set to the canonical values); otherwise a fresh canonical
row is added. -/
def perm_step (existingCodes : List String) (acc : List Permission)
    (cl : String × String) : List Permission :=
  if existingCodes.contains cl.1 then
    acc.map (fun p =>
      if p.code = cl.1 then
        { p with label := cl.2, category := _category_from_code cl.1 }
      else p)
  else
    acc ++ [canonical_perm cl]

/-- The permissions phase of `bootstrap_rbac`: fold the loop over
`DEFAULT_PERMS`, with `existing` snapshotted before the loop. -/
def bootstrap_perms (perms : List Permission) : List Permission :=
  DEFAULT_PERMS.foldl (perm_step (perms.map Permission.code)) perms

/-- Replace the first element whose code is `c` by its image under `f`
(SQLAlchemy `filter_by(code=c).first()` followed by a mutation). -/
def update_first (c : String) (f : Role → Role) : List Role → List Role
  | [] => []
  | r :: rs => if r.code = c then f r :: rs else r :: update_first c f rs

/-- One iteration of the roles loop: fetch or create the role, then
overwrite `role.permissions` with the template codes that exist in the
permission table (`perms_by_code`). -/
def role_step (permCodes : List String) (roles : List Role)
    (tpl : String × List String) : List Role :=
  if roles.any (fun r => r.code = tpl.1) then
    update_first tpl.1 (fun r => { r with permissions := tpl.2.filter (fun c => permCodes.contains c) }) roles
  else
    roles ++ [Role.mk tpl.1 tpl.1 (tpl.2.filter (fun c => permCodes.contains c))]

/-- The roles phase of `bootstrap_rbac`. -/
def bootstrap_roles (permCodes : List String) (roles : List Role) : List Role :=
  ROLE_TEMPLATES.foldl (role_step permCodes) roles

/-- The `legacy_map` dict of `bootstrap_rbac`. -/
def legacy_map : List (String × String) := [
  ("directrice", "direction"),
  ("direction", "direction"),
  ("financiere", "finance"),
  ("financière", "finance"),
  ("finance", "finance"),
  ("responsable_secteur", "responsable_secteur"),
  ("admin_tech", "admin_tech")
]

/-- `legacy_map.get(legacy, legacy)`. -/
def legacy_map_get (s : String) : String :=
  match legacy_map.find? (fun kv => kv.1 = s) with
  | some kv => kv.2
  | none => s

/-- `legacy = (u.role or "responsable_secteur").strip()` followed by
`target = legacy_map.get(legacy, legacy)`. -/
def legacy_target (u : PyUser) : String :=
  let raw := match u.role with
    | none => "responsable_secteur"
    | some s => if s = "" then "responsable_secteur" else s
  legacy_map_get (py_strip raw)

/-- One iteration of the user-synchronisation loop: users without a `roles`
attribute are skipped; otherwise the target role is appended when it exists
in the role table and is not already attached. -/
def sync_user (roleCodes : List String) (u : PyUser) : PyUser :=
  if !u.has_roles_attr then u
  else
    let target := legacy_target u
    if roleCodes.contains target && !u.roles.contains target then
      { u with roles := u.roles ++ [target] }
    else u

/-- `bootstrap_rbac`: when `db.create_all()` raises, the function logs and
returns with the state untouched; otherwise it runs the permissions phase,
the roles phase (over the refreshed permission table) and the legacy user
synchronisation (over the refreshed role table). -/
def bootstrap_rbac (create_all_ok : Bool) (st : DBState) : DBState :=
  if !create_all_ok then st
  else
    let perms1 := bootstrap_perms st.perms
    let roles1 := bootstrap_roles (perms1.map Permission.code) st.roles
    let users1 := st.users.map (sync_user (roles1.map Role.code))
    { perms := perms1, roles := roles1, users := users1 }

/-! ## `app/rbac.py`: permission expansion, `can`, `require_perm` -/

/-- `PERM_EQUIVALENTS`: historical tolerance sets (Python sets, as lists). -/
def PERM_EQUIVALENTS : List (String × List String) := [
  ("statsimpact:view", ["statsimpact:view", "stats:view"]),
  ("bilan:view", ["bilan:view", "bilans:view"]),
  ("bilans:lourds:view", ["bilans:lourds:view", "bilans:view"]),
  ("participants:update", ["participants:update", "participants:edit"]),
  ("participants:write", ["participants:write", "participants:edit"]),
  ("participant:edit", ["participant:edit", "participants:edit"]),
  ("projets_edit", ["projets_edit", "projets:edit"])
]

/-- `_expand_perm`: strip the code; empty gives the empty set, a key of
`PERM_EQUIVALENTS` gives its equivalence set, anything else its singleton. -/
def _expand_perm (code : String) : List String :=
  let c := py_strip code
  if c = "" then []
  else
    match PERM_EQUIVALENTS.find? (fun kv => kv.1 = c) with
    | some kv => kv.2
    | none => [c]

/-- `flask_login.current_user` as the RBAC helpers see it:
`is_authenticated`, and `getattr(current_user, "has_perm", None)` collapsed
with the `callable` test into an optional function. -/
structure CurrentUser where
  is_authenticated : Bool
  has_perm : Option (String → Bool)

/-- `can(code)`. -/
def can (u : CurrentUser) (code : String) : Bool :=
  if !u.is_authenticated then false
  else
    match u.has_perm with
    | none => false
    | some f =>
      let wanted := _expand_perm code
      if wanted.isEmpty then false
      else wanted.any f

/-- The wrapper produced by `require_perm(code)` applied to a view whose
result is `fn`: `abort(401)` / `abort(403)` become `.error`, a normal call
of the wrapped function becomes `.ok fn`. -/
def require_perm (code : String) (u : CurrentUser) (fn : Nat) : Except Nat Nat :=
  if !u.is_authenticated then .error 401
  else
    match u.has_perm with
    | none => .error 403
    | some f =>
      let wanted := _expand_perm code
      if wanted.isEmpty then .error 403
      else if wanted.any f then .ok fn
      else .error 403

/-! ## `app/__init__.py`: `ensure_schema` -/

/-- The inspected schema: table name to list of column names. -/
abbrev Schema : Type := List (String × List String)

/-- Whether a table is really present (raw `insp.has_table`). -/
def hasTableRaw (s : Schema) (t : String) : Bool :=
  s.any (fun p => p.1 = t)

/-- `get_cols`: the inspected column names of `table`; a missing table, or
any inspection failure (the `ifail` oracle covers both the `has_table` and
the `get_columns` try/except), gives the empty set. -/
def get_cols (ifail : String → Bool) (s : Schema) (t : String) : List String :=
  if ifail t then []
  else
    match s.find? (fun p => p.1 = t) with
    | none => []
    | some p => p.2

/-- Effect of a successful `ALTER TABLE t ADD COLUMN c`. -/
def addColToTable (s : Schema) (t c : String) : Schema :=
  s.map (fun p => if p.1 = t then (p.1, p.2 ++ [c]) else p)

/-- The arguments of one `add_col` call. -/
structure ColSpec where
  table : String
  col : String
  sqlSqlite : String
  sqlPg : String
deriving DecidableEq

/-- One statement of a migration group. -/
inductive MigStep where
  | addCol : ColSpec → MigStep
  | createIndex : String → String → String → MigStep
  | pgDropNotNull : String → MigStep
deriving DecidableEq

/-- `add_col(table, col, sql_sqlite, sql_pg)`: return immediately when the
column is already among the inspected columns; otherwise execute the variant
chosen by the dialect.  `ef` is the oracle saying which SQL statements raise;
an `ALTER TABLE` on a missing table also raises.  The result carries the new
schema and the list of statements issued; an exception carries the statements
issued up to and including the failing one. -/
def add_col (ef ifail : String → Bool) (dialect : String) (s : Schema)
    (spec : ColSpec) : Except (List String) (Schema × List String) :=
  if (get_cols ifail s spec.table).contains spec.col then .ok (s, [])
  else
    let sql := if dialect = "sqlite" then spec.sqlSqlite else spec.sqlPg
    if ef sql || !hasTableRaw s spec.table then .error [sql]
    else .ok (addColToTable s spec.table spec.col, [sql])

/-- `create_index(sql_sqlite, sql_pg)` on a given table: always executes the
dialect variant (the statements are `CREATE ... IF NOT EXISTS`); it raises
when the oracle says so or the table is missing, and leaves the column
schema unchanged. -/
def create_index (ef : String → Bool) (dialect : String) (s : Schema)
    (t sqlS sqlP : String) : Except (List String) (Schema × List String) :=
  let sql := if dialect = "sqlite" then sqlS else sqlP
  if ef sql || !hasTableRaw s t then .error [sql]
  else .ok (s, [sql])

/-- Execute one migration statement.  The `pgDropNotNull` statement sits in
its own inner `try/except: pass`, so it never propagates an exception and
only runs on the `postgresql` dialect. -/
def run_step (ef ifail : String → Bool) (dialect : String) (s : Schema) :
    MigStep → Except (List String) (Schema × List String)
  | .addCol spec => add_col ef ifail dialect s spec
  | .createIndex t sqlS sqlP => create_index ef dialect s t sqlS sqlP
  | .pgDropNotNull sql =>
      if dialect = "postgresql" then .ok (s, [sql]) else .ok (s, [])

/-- Execute the statements of one group in order, stopping at the first
exception; the log accumulates every statement issued. -/
def run_steps (ef ifail : String → Bool) (dialect : String) (s : Schema) :
    List MigStep → Except (List String) (Schema × List String)
  | [] => .ok (s, [])
  | st :: rest =>
    match run_step ef ifail dialect s st with
    | .error l => .error l
    | .ok (s1, l) =>
      match run_steps ef ifail dialect s1 rest with
      | .error l2 => .error (l ++ l2)
      | .ok (s2, l2) => .ok (s2, l ++ l2)

/-- One `try: ... db.session.commit() except Exception: db.session.rollback()`
group: on an exception the uncommitted schema changes of the group are rolled
back and the run continues. -/
def run_group (ef ifail : String → Bool) (dialect : String) (s : Schema)
    (g : List MigStep) : Schema × List String :=
  match run_steps ef ifail dialect s g with
  | .ok r => r
  | .error l => (s, l)

/-- Run the migration groups in order: each group starts from the schema the
previous group left. -/
def run_groups (ef ifail : String → Bool) (dialect : String) (s : Schema) :
    List (List MigStep) → Schema × List String
  | [] => (s, [])
  | g :: gs =>
    let r := run_group ef ifail dialect s g
    let rest := run_groups ef ifail dialect r.1 gs
    (rest.1, r.2 ++ rest.2)

/-- Group 1: `ligne_budget.nature`. -/
def mig_group1 : List MigStep := [
  .addCol ⟨"ligne_budget", "nature",
    "ALTER TABLE ligne_budget ADD COLUMN nature VARCHAR(10) NOT NULL DEFAULT \x27charge\x27",
    "ALTER TABLE ligne_budget ADD COLUMN IF NOT EXISTS nature VARCHAR(10) NOT NULL DEFAULT \x27charge\x27"⟩
]

/-- Group 2: kiosk and soft-delete columns of `session_activite`. -/
def mig_group2 : List MigStep := [
  .addCol ⟨"session_activite", "is_deleted",
    "ALTER TABLE session_activite ADD COLUMN is_deleted BOOLEAN NOT NULL DEFAULT 0",
    "ALTER TABLE session_activite ADD COLUMN IF NOT EXISTS is_deleted BOOLEAN NOT NULL DEFAULT FALSE"⟩,
  .addCol ⟨"session_activite", "deleted_at",
    "ALTER TABLE session_activite ADD COLUMN deleted_at DATETIME",
    "ALTER TABLE session_activite ADD COLUMN IF NOT EXISTS deleted_at TIMESTAMP"⟩,
  .addCol ⟨"session_activite", "kiosk_open",
    "ALTER TABLE session_activite ADD COLUMN kiosk_open BOOLEAN NOT NULL DEFAULT 0",
    "ALTER TABLE session_activite ADD COLUMN IF NOT EXISTS kiosk_open BOOLEAN NOT NULL DEFAULT FALSE"⟩,
  .addCol ⟨"session_activite", "kiosk_pin",
    "ALTER TABLE session_activite ADD COLUMN kiosk_pin VARCHAR(10)",
    "ALTER TABLE session_activite ADD COLUMN IF NOT EXISTS kiosk_pin VARCHAR(10)"⟩,
  .addCol ⟨"session_activite", "kiosk_token",
    "ALTER TABLE session_activite ADD COLUMN kiosk_token VARCHAR(64)",
    "ALTER TABLE session_activite ADD COLUMN IF NOT EXISTS kiosk_token VARCHAR(64)"⟩,
  .addCol ⟨"session_activite", "kiosk_opened_at",
    "ALTER TABLE session_activite ADD COLUMN kiosk_opened_at DATETIME",
    "ALTER TABLE session_activite ADD COLUMN IF NOT EXISTS kiosk_opened_at TIMESTAMP"⟩
]

/-- Group 3: soft-delete columns of `atelier_activite`. -/
def mig_group3 : List MigStep := [
  .addCol ⟨"atelier_activite", "is_deleted",
    "ALTER TABLE atelier_activite ADD COLUMN is_deleted BOOLEAN NOT NULL DEFAULT 0",
    "ALTER TABLE atelier_activite ADD COLUMN IF NOT EXISTS is_deleted BOOLEAN NOT NULL DEFAULT FALSE"⟩,
  .addCol ⟨"atelier_activite", "deleted_at",
    "ALTER TABLE atelier_activite ADD COLUMN deleted_at DATETIME",
    "ALTER TABLE atelier_activite ADD COLUMN IF NOT EXISTS deleted_at TIMESTAMP"⟩
]

/-- Group 4: complementary `participant` columns. -/
def mig_group4 : List MigStep := [
  .addCol ⟨"participant", "signature_path",
    "ALTER TABLE participant ADD COLUMN signature_path VARCHAR(255)",
    "ALTER TABLE participant ADD COLUMN IF NOT EXISTS signature_path VARCHAR(255)"⟩,
  .addCol ⟨"participant", "sexe",
    "ALTER TABLE participant ADD COLUMN sexe VARCHAR(20)",
    "ALTER TABLE participant ADD COLUMN IF NOT EXISTS sexe VARCHAR(20)"⟩,
  .addCol ⟨"participant", "type_public",
    "ALTER TABLE participant ADD COLUMN type_public VARCHAR(50)",
    "ALTER TABLE participant ADD COLUMN IF NOT EXISTS type_public VARCHAR(50)"⟩,
  .addCol ⟨"participant", "ville",
    "ALTER TABLE participant ADD COLUMN ville VARCHAR(100)",
    "ALTER TABLE participant ADD COLUMN IF NOT EXISTS ville VARCHAR(100)"⟩,
  .addCol ⟨"participant", "quartier_id",
    "ALTER TABLE participant ADD COLUMN quartier_id INTEGER",
    "ALTER TABLE participant ADD COLUMN IF NOT EXISTS quartier_id INTEGER"⟩
]

/-- Group 5: soft-delete columns of `archive_emargement`. -/
def mig_group5 : List MigStep := [
  .addCol ⟨"archive_emargement", "is_deleted",
    "ALTER TABLE archive_emargement ADD COLUMN is_deleted BOOLEAN NOT NULL DEFAULT 0",
    "ALTER TABLE archive_emargement ADD COLUMN IF NOT EXISTS is_deleted BOOLEAN NOT NULL DEFAULT FALSE"⟩,
  .addCol ⟨"archive_emargement", "deleted_at",
    "ALTER TABLE archive_emargement ADD COLUMN deleted_at DATETIME",
    "ALTER TABLE archive_emargement ADD COLUMN IF NOT EXISTS deleted_at TIMESTAMP"⟩
]

/-- Group 6: the unique presence index (same statement on both dialects). -/
def mig_group6 : List MigStep := [
  .createIndex "presence_activite"
    "CREATE UNIQUE INDEX IF NOT EXISTS idx_uq_presence_session_participant ON presence_activite(session_id, participant_id)"
    "CREATE UNIQUE INDEX IF NOT EXISTS idx_uq_presence_session_participant ON presence_activite(session_id, participant_id)"
]

/-- Group 7: `depense` columns, plus the Postgres-only nullability fix. -/
def mig_group7 : List MigStep := [
  .addCol ⟨"depense", "facture_ligne_id",
    "ALTER TABLE depense ADD COLUMN facture_ligne_id INTEGER",
    "ALTER TABLE depense ADD COLUMN IF NOT EXISTS facture_ligne_id INTEGER"⟩,
  .addCol ⟨"depense", "facture_quantite",
    "ALTER TABLE depense ADD COLUMN facture_quantite INTEGER NOT NULL DEFAULT 1",
    "ALTER TABLE depense ADD COLUMN IF NOT EXISTS facture_quantite INTEGER NOT NULL DEFAULT 1"⟩,
  .addCol ⟨"depense", "charge_projet_id",
    "ALTER TABLE depense ADD COLUMN charge_projet_id INTEGER",
    "ALTER TABLE depense ADD COLUMN IF NOT EXISTS charge_projet_id INTEGER"⟩,
  .pgDropNotNull "ALTER TABLE depense ALTER COLUMN ligne_budget_id DROP NOT NULL"
]

/-- The seven try/except groups of `ensure_schema`, in source order. -/
def mig_groups : List (List MigStep) :=
  [mig_group1, mig_group2, mig_group3, mig_group4, mig_group5, mig_group6,
   mig_group7]

/-- `ensure_schema`: run the seven groups in order. -/
def ensure_schema (ef ifail : String → Bool) (dialect : String) (s : Schema) :
    Schema × List String :=
  run_groups ef ifail dialect s mig_groups

/-- The tables the migration touches. -/
def mig_tables : List String :=
  ["ligne_budget", "session_activite", "atelier_activite", "participant",
   "archive_emargement", "presence_activite", "depense"]

/-- The table a step operates on, when any. -/
def step_table : MigStep → Option String
  | .addCol spec => some spec.table
  | .createIndex t _ _ => some t
  | .pgDropNotNull _ => none

/-- Whether a step's table is listed in `mig_tables` (vacuous otherwise). -/
def step_table_listed (st : MigStep) : Bool :=
  match step_table st with
  | some t => mig_tables.contains t
  | none => true

/-- Statements a step issues on a run where every `add_col` column is
already present: `add_col` is silent, `create_index` and the Postgres
nullability fix run again. -/
def second_log (dialect : String) : MigStep → List String
  | .addCol _ => []
  | .createIndex _ sqlS sqlP => [if dialect = "sqlite" then sqlS else sqlP]
  | .pgDropNotNull sql => if dialect = "postgresql" then [sql] else []

/-- The full log of a run of `ensure_schema` in which every `add_col`
column is already present. -/
def ensure_log2 (dialect : String) : List String :=
  (mig_groups.map (fun g => (g.map (second_log dialect)).flatten)).flatten

/-- `pat` occurs as a leading run of `s`. -/
def starts_with_chars : List Char → List Char → Bool
  | _, [] => true
  | [], _ :: _ => false
  | c :: cs, p :: ps => c = p && starts_with_chars cs ps

/-- `pat` occurs somewhere inside `s`. -/
def has_sub_chars (pat : List Char) : List Char → Bool
  | [] => starts_with_chars [] pat
  | c :: cs => starts_with_chars (c :: cs) pat || has_sub_chars pat cs

/-- The SQL text contains `ADD COLUMN` (true of every `add_col` statement,
false of the index creation and of the nullability fix). -/
def mentions_add_column (sql : String) : Bool :=
  has_sub_chars "ADD COLUMN".data sql.data

/-! ## Helper lemmas -/

theorem expand_of_strip_empty (code : String) (h : py_strip code = "") :
    _expand_perm code = [] := by
  unfold _expand_perm
  simp [h]

theorem expand_ne_nil_of_strip_ne (code : String) (h : ¬ py_strip code = "") :
    _expand_perm code ≠ [] := by
  unfold _expand_perm
  simp only [h, if_false]
  cases hf : PERM_EQUIVALENTS.find? (fun kv => kv.1 = py_strip code) with
  | none => simp
  | some kv =>
    have hmem := List.mem_of_find?_eq_some hf
    have hne : ∀ kv ∈ PERM_EQUIVALENTS, kv.2 ≠ ([] : List String) := by decide
    simpa using hne kv hmem

/-! ## Claim theorems -/

/-- Claim C1: `can(code)` is a set-membership test: it is `True` exactly when
the user is authenticated, exposes a callable `has_perm`, the expansion of
`code` is non-empty, and `has_perm` accepts some member of the expansion; in
particular it is `False` for an unauthenticated user and for a code that
strips to the empty string. -/
theorem can_is_membership_test (u : CurrentUser) (code : String) :
    (can u code = true ↔
      ∃ f, u.is_authenticated = true ∧ u.has_perm = some f ∧
        _expand_perm code ≠ [] ∧ ∃ c ∈ _expand_perm code, f c = true)
    ∧ (u.is_authenticated = false → can u code = false)
    ∧ (py_strip code = "" → can u code = false) := by
  obtain ⟨auth, hp⟩ := u
  unfold can
  cases auth with
  | false => simp
  | true =>
    cases hp with
    | none => simp
    | some f =>
      by_cases he : (_expand_perm code).isEmpty
      · have : _expand_perm code = [] := List.isEmpty_iff.mp he
        simp [he, this, List.isEmpty_iff]
      · have hne : _expand_perm code ≠ [] := fun h => he (by simp [h])
        have hnstrip : ¬ py_strip code = "" := fun h => hne (expand_of_strip_empty code h)
        simp [he, hne, hnstrip, List.any_eq_true]

/-- Witness for C1 at a concrete unauthenticated user and concrete code. -/
theorem can_is_membership_test_witness :
    (CurrentUser.mk false none).is_authenticated = false ∧
      can (CurrentUser.mk false none) "dashboard:view" = false :=
  ⟨rfl, (can_is_membership_test (CurrentUser.mk false none) "dashboard:view").2.1 rfl⟩

theorem can_and_require_of_mem (u : CurrentUser) (f : String → Bool)
    (code c : String) (fn : Nat) (hA : u.is_authenticated = true)
    (hP : u.has_perm = some f) (hc : c ∈ _expand_perm code) (hf : f c = true) :
    can u code = true ∧ require_perm code u fn = .ok fn := by
  have hne : ¬ (_expand_perm code).isEmpty = true := by
    intro h
    rw [List.isEmpty_iff.mp h] at hc
    exact absurd hc (List.not_mem_nil c)
  have hany : (_expand_perm code).any f = true := List.any_eq_true.mpr ⟨c, hc, hf⟩
  unfold can require_perm
  rw [hA, hP]
  simp [hne, hany]

/-- Claim C2: the `require_perm(code)` wrapper aborts 401 for an
unauthenticated user; for an authenticated user it aborts 403 when there is
no callable `has_perm`, or the expansion of `code` is empty, or `has_perm`
rejects every member of the expansion; otherwise it calls the wrapped view
and returns its result unchanged. -/
theorem require_perm_error_handling (code : String) (u : CurrentUser) (fn : Nat) :
    (u.is_authenticated = false → require_perm code u fn = .error 401)
    ∧ (u.is_authenticated = true → u.has_perm = none →
        require_perm code u fn = .error 403)
    ∧ (∀ f, u.is_authenticated = true → u.has_perm = some f →
        _expand_perm code = [] → require_perm code u fn = .error 403)
    ∧ (∀ f, u.is_authenticated = true → u.has_perm = some f →
        (∀ c ∈ _expand_perm code, f c = false) →
        require_perm code u fn = .error 403)
    ∧ (∀ f, u.is_authenticated = true → u.has_perm = some f →
        (∃ c ∈ _expand_perm code, f c = true) →
        require_perm code u fn = .ok fn) := by
  obtain ⟨auth, hp⟩ := u
  unfold require_perm
  cases auth with
  | false => simp
  | true =>
    cases hp with
    | none => simp
    | some f =>
      refine ⟨by simp, by simp, ?_, ?_, ?_⟩
      · intro g _ hg hemp
        simp only [Option.some.injEq] at hg
        simp [hemp]
      · intro g _ hg hall
        simp only [Option.some.injEq] at hg
        subst hg
        have hfalse : (_expand_perm code).any f = false := by
          rw [List.any_eq_false]
          intro c hc
          simp [hall c hc]
        by_cases he : (_expand_perm code).isEmpty <;> simp [he, hfalse]
      · intro g _ hg hex
        simp only [Option.some.injEq] at hg
        subst hg
        obtain ⟨c, hc, hfc⟩ := hex
        have hne : ¬ (_expand_perm code).isEmpty = true := by
          intro h
          rw [List.isEmpty_iff.mp h] at hc
          exact absurd hc (List.not_mem_nil c)
        have hany : (_expand_perm code).any f = true := List.any_eq_true.mpr ⟨c, hc, hfc⟩
        simp [hne, hany]

/-- Witness for C2: a concrete unauthenticated user is aborted with 401. -/
theorem require_perm_error_handling_witness :
    (CurrentUser.mk false none).is_authenticated = false ∧
      require_perm "stats:view" (CurrentUser.mk false none) 7 = .error 401 :=
  ⟨rfl, (require_perm_error_handling "stats:view" (CurrentUser.mk false none) 7).1 rfl⟩

/-- Claim C10: for an authenticated user, the wrapper of `require_perm(code)`
invokes the wrapped view exactly when `can(code)` is true: both take the same
decision from the same expansion and the same `has_perm` test. -/
theorem require_perm_agrees_with_can (code : String) (u : CurrentUser) (fn : Nat)
    (h : u.is_authenticated = true) :
    require_perm code u fn = .ok fn ↔ can u code = true := by
  obtain ⟨auth, hp⟩ := u
  simp only at h
  subst h
  unfold require_perm can
  cases hp with
  | none => simp
  | some f =>
    by_cases he : (_expand_perm code).isEmpty
    · simp [he]
    · by_cases ha : (_expand_perm code).any f <;> simp [he, ha]

/-- Witness for C10 at a concrete authenticated user. -/
theorem require_perm_agrees_with_can_witness :
    (CurrentUser.mk true (some (fun c => c == "stats:view"))).is_authenticated = true ∧
      (require_perm "statsimpact:view"
          (CurrentUser.mk true (some (fun c => c == "stats:view"))) 5 = .ok 5 ↔
        can (CurrentUser.mk true (some (fun c => c == "stats:view")))
          "statsimpact:view" = true) :=
  ⟨rfl, require_perm_agrees_with_can "statsimpact:view"
      (CurrentUser.mk true (some (fun c => c == "stats:view"))) 5 rfl⟩

/-- Claim C8: for every code with non-empty strip, the expansion contains the
stripped code itself: every `PERM_EQUIVALENTS` key belongs to its own
equivalence set and non-keys expand to their singleton; consequently a user
whose `has_perm` accepts the code is never denied by `can` or
`require_perm`. -/
theorem expand_perm_contains_self :
    (∀ kv ∈ PERM_EQUIVALENTS, kv.1 ∈ kv.2)
    ∧ (∀ code : String, ¬ py_strip code = "" →
        py_strip code ∈ _expand_perm code
        ∧ (PERM_EQUIVALENTS.find? (fun kv => kv.1 = py_strip code) = none →
            _expand_perm code = [py_strip code])
        ∧ ∀ (u : CurrentUser) (f : String → Bool) (fn : Nat),
            u.is_authenticated = true → u.has_perm = some f →
            f (py_strip code) = true →
            can u code = true ∧ require_perm code u fn = .ok fn) := by
  have hkeys : ∀ kv ∈ PERM_EQUIVALENTS, kv.1 ∈ kv.2 := by decide
  refine ⟨hkeys, fun code h => ?_⟩
  have hmem : py_strip code ∈ _expand_perm code := by
    unfold _expand_perm
    simp only [h, if_false]
    cases hf : PERM_EQUIVALENTS.find? (fun kv => kv.1 = py_strip code) with
    | none => simp
    | some kv =>
      have hin := List.mem_of_find?_eq_some hf
      have hp := List.find?_some hf
      simp only [decide_eq_true_eq] at hp
      simpa [hp] using hkeys kv hin
  refine ⟨hmem, ?_, ?_⟩
  · intro hnone
    unfold _expand_perm
    simp [h, hnone]
  · intro u f fn hA hP hf
    exact can_and_require_of_mem u f code (py_strip code) fn hA hP hmem hf

/-- Witness for C8 at the concrete key code `statsimpact:view`. -/
theorem expand_perm_contains_self_witness :
    ¬ py_strip "statsimpact:view" = "" ∧
      py_strip "statsimpact:view" ∈ _expand_perm "statsimpact:view" :=
  ⟨by decide, (expand_perm_contains_self.2 "statsimpact:view" (by decide)).1⟩

/-! ## Lemmas on the permissions phase of `bootstrap_rbac` -/

/-- Every result row with this code carries the canonical label and
category. -/
def perms_canonical (c l : String) (ps : List Permission) : Prop :=
  ∀ p ∈ ps, p.code = c → p.label = l ∧ p.category = _category_from_code c

theorem perm_step_code_mem (ec : List String) (acc : List Permission)
    (cl : String × String) (c : String) (h : c ∈ acc.map Permission.code) :
    c ∈ (perm_step ec acc cl).map Permission.code := by
  unfold perm_step
  by_cases hc : ec.contains cl.1
  · rw [if_pos hc]
    rcases List.mem_map.mp h with ⟨p, hp, rfl⟩
    apply List.mem_map.mpr
    refine ⟨if p.code = cl.1 then
      { p with label := cl.2, category := _category_from_code cl.1 } else p,
      List.mem_map_of_mem _ hp, ?_⟩
    by_cases hpc : p.code = cl.1 <;> simp [hpc]
  · rw [if_neg hc, List.map_append]
    exact List.mem_append_left _ h

theorem perm_fold_code_mem (ec : List String) (pairs : List (String × String))
    (acc : List Permission) (c : String) (h : c ∈ acc.map Permission.code) :
    c ∈ (pairs.foldl (perm_step ec) acc).map Permission.code := by
  induction pairs generalizing acc with
  | nil => simpa using h
  | cons cl rest ih => exact ih _ (perm_step_code_mem ec acc cl c h)

theorem perm_fold_mem_processed (ec : List String)
    (pairs : List (String × String)) (acc : List Permission)
    (hec : ∀ c ∈ ec, c ∈ acc.map Permission.code) :
    ∀ cl ∈ pairs, cl.1 ∈ (pairs.foldl (perm_step ec) acc).map Permission.code := by
  induction pairs generalizing acc with
  | nil => simp
  | cons cl0 rest ih =>
    intro cl hcl
    have hec' : ∀ c ∈ ec, c ∈ (perm_step ec acc cl0).map Permission.code :=
      fun c hc => perm_step_code_mem ec acc cl0 c (hec c hc)
    rcases List.mem_cons.mp hcl with rfl | hmem
    · have h0 : cl.1 ∈ (perm_step ec acc cl).map Permission.code := by
        by_cases hc : ec.contains cl.1
        · have hin : cl.1 ∈ ec := by simpa using hc
          exact perm_step_code_mem ec acc cl cl.1 (hec cl.1 hin)
        · unfold perm_step
          rw [if_neg hc, List.map_append]
          apply List.mem_append_right
          simp [canonical_perm]
      exact perm_fold_code_mem ec rest _ cl.1 h0
    · exact ih _ hec' cl hmem

theorem perm_step_establishes (ec : List String) (acc : List Permission)
    (cl : String × String)
    (hacc : ¬ ec.contains cl.1 = true → ∀ p ∈ acc, p.code ≠ cl.1) :
    perms_canonical cl.1 cl.2 (perm_step ec acc cl) := by
  intro p hp hcode
  unfold perm_step at hp
  by_cases hc : ec.contains cl.1
  · rw [if_pos hc] at hp
    rcases List.mem_map.mp hp with ⟨q, hq, rfl⟩
    by_cases hqc : q.code = cl.1
    · simp [hqc]
    · rw [if_neg hqc] at hcode ⊢
      exact absurd hcode hqc
  · rw [if_neg hc] at hp
    rcases List.mem_append.mp hp with h | h
    · exact absurd hcode (hacc hc p h)
    · rcases List.mem_singleton.mp h with rfl
      exact ⟨rfl, rfl⟩

theorem perm_step_preserves_canonical (ec : List String) (acc : List Permission)
    (cl : String × String) (c l : String) (hne : cl.1 ≠ c)
    (hcan : perms_canonical c l acc) :
    perms_canonical c l (perm_step ec acc cl) := by
  intro p hp hcode
  unfold perm_step at hp
  by_cases hc : ec.contains cl.1
  · rw [if_pos hc] at hp
    rcases List.mem_map.mp hp with ⟨q, hq, rfl⟩
    by_cases hqc : q.code = cl.1
    · rw [if_pos hqc] at hcode
      simp only at hcode
      exact absurd (hqc ▸ hcode) hne
    · rw [if_neg hqc] at hcode ⊢
      exact hcan q hq hcode
  · rw [if_neg hc] at hp
    rcases List.mem_append.mp hp with h | h
    · exact hcan p h hcode
    · rcases List.mem_singleton.mp h with rfl
      exact absurd hcode hne

theorem perm_fold_preserves_canonical (ec : List String)
    (pairs : List (String × String)) (acc : List Permission) (c l : String)
    (h : ∀ cl ∈ pairs, cl.1 ≠ c) (hcan : perms_canonical c l acc) :
    perms_canonical c l (pairs.foldl (perm_step ec) acc) := by
  induction pairs generalizing acc with
  | nil => simpa using hcan
  | cons cl0 rest ih =>
    exact ih _ (fun cl hcl => h cl (List.mem_cons_of_mem cl0 hcl))
      (perm_step_preserves_canonical ec acc cl0 c l
        (h cl0 (List.mem_cons_self cl0 rest)) hcan)

theorem perm_step_no_code (ec : List String) (acc : List Permission)
    (cl : String × String) (c : String) (h : ∀ p ∈ acc, p.code ≠ c)
    (hne : cl.1 ≠ c) : ∀ p ∈ perm_step ec acc cl, p.code ≠ c := by
  intro p hp
  unfold perm_step at hp
  by_cases hc : ec.contains cl.1
  · rw [if_pos hc] at hp
    rcases List.mem_map.mp hp with ⟨q, hq, rfl⟩
    by_cases hqc : q.code = cl.1
    · simpa [hqc] using hne
    · simpa [hqc] using h q hq
  · rw [if_neg hc] at hp
    rcases List.mem_append.mp hp with hmem | hmem
    · exact h p hmem
    · rcases List.mem_singleton.mp hmem with rfl
      exact hne

theorem perm_fold_canonical (ec : List String) (pairs : List (String × String))
    (acc : List Permission) (hnd : (pairs.map Prod.fst).Nodup)
    (hacc : ∀ cl ∈ pairs, ¬ ec.contains cl.1 = true → ∀ p ∈ acc, p.code ≠ cl.1) :
    ∀ cl ∈ pairs, perms_canonical cl.1 cl.2 (pairs.foldl (perm_step ec) acc) := by
  induction pairs generalizing acc with
  | nil => simp
  | cons cl0 rest ih =>
    rw [List.map_cons] at hnd
    have hnd2 := List.nodup_cons.mp hnd
    have hrestne : ∀ cl ∈ rest, cl.1 ≠ cl0.1 := by
      intro cl hcl heq
      exact hnd2.1 (heq ▸ List.mem_map_of_mem Prod.fst hcl)
    intro cl hcl
    rcases List.mem_cons.mp hcl with rfl | hmem
    · exact perm_fold_preserves_canonical ec rest _ cl.1 cl.2 hrestne
        (perm_step_establishes ec acc cl (hacc cl (List.mem_cons_self cl rest)))
    · refine ih _ hnd2.2 ?_ cl hmem
      intro cl' hcl' hnc'
      exact perm_step_no_code ec acc cl0 cl'.1
        (hacc cl' (List.mem_cons_of_mem cl0 hcl') hnc')
        (Ne.symm (hrestne cl' hcl'))

theorem perm_step_untouched (ec : List String) (acc : List Permission)
    (cl : String × String) (p : Permission) (hp : p ∈ acc)
    (hne : p.code ≠ cl.1) : p ∈ perm_step ec acc cl := by
  unfold perm_step
  by_cases hc : ec.contains cl.1
  · rw [if_pos hc]
    have heq : (if p.code = cl.1 then
        { p with label := cl.2, category := _category_from_code cl.1 } else p) = p := by
      rw [if_neg hne]
    exact heq ▸ List.mem_map_of_mem _ hp
  · rw [if_neg hc]
    exact List.mem_append_left _ hp

theorem perm_fold_untouched (ec : List String) (pairs : List (String × String))
    (acc : List Permission) (p : Permission) (hp : p ∈ acc)
    (h : ∀ cl ∈ pairs, cl.1 ≠ p.code) : p ∈ pairs.foldl (perm_step ec) acc := by
  induction pairs generalizing acc with
  | nil => simpa using hp
  | cons cl0 rest ih =>
    exact ih _ (perm_step_untouched ec acc cl0 p hp
        (fun hpc => h cl0 (List.mem_cons_self cl0 rest) hpc.symm))
      (fun cl hcl => h cl (List.mem_cons_of_mem cl0 hcl))

theorem not_contains_of_no_code (perms : List Permission) (c : String)
    (h : ¬ (perms.map Permission.code).contains c = true) :
    ∀ p ∈ perms, p.code ≠ c := by
  intro p hp hc
  apply h
  have hmem : p.code ∈ perms.map Permission.code :=
    List.mem_map_of_mem Permission.code hp
  rw [hc] at hmem
  simpa using hmem

theorem DEFAULT_PERMS_nodup : (DEFAULT_PERMS.map Prod.fst).Nodup := by decide

/-- Claim C3: after `bootstrap_rbac` (with `db.create_all()` succeeding),
every `DEFAULT_PERMS` pair is present as a `Permission` row with the given
label and the `_category_from_code` category; any pre-existing row with one
of these codes has been updated to those values; and rows whose code is not
in `DEFAULT_PERMS` are left in place. -/
theorem bootstrap_rbac_permissions (st : DBState) :
    (∀ cl ∈ DEFAULT_PERMS,
      (∃ p ∈ (bootstrap_rbac true st).perms,
          p.code = cl.1 ∧ p.label = cl.2 ∧ p.category = _category_from_code cl.1)
      ∧ ∀ p ∈ (bootstrap_rbac true st).perms, p.code = cl.1 →
          p.label = cl.2 ∧ p.category = _category_from_code cl.1)
    ∧ ∀ p ∈ st.perms, p.code ∉ DEFAULT_PERMS.map Prod.fst →
        p ∈ (bootstrap_rbac true st).perms := by
  have hperms : (bootstrap_rbac true st).perms =
      DEFAULT_PERMS.foldl (perm_step (st.perms.map Permission.code)) st.perms := rfl
  rw [hperms]
  constructor
  · intro cl hcl
    have hcode := perm_fold_mem_processed (st.perms.map Permission.code)
      DEFAULT_PERMS st.perms (fun c hc => hc) cl hcl
    have hcanon := perm_fold_canonical (st.perms.map Permission.code)
      DEFAULT_PERMS st.perms DEFAULT_PERMS_nodup
      (fun cl' _ hnc => not_contains_of_no_code st.perms cl'.1 hnc) cl hcl
    constructor
    · rcases List.mem_map.mp hcode with ⟨p, hp, hpc⟩
      exact ⟨p, hp, hpc, hcanon p hp hpc⟩
    · exact fun p hp hpc => hcanon p hp hpc
  · intro p hp hnot
    apply perm_fold_untouched
    · exact hp
    · intro cl hcl heq
      exact hnot (heq ▸ List.mem_map_of_mem Prod.fst hcl)

/-- Witness for C3: on the empty database, the first `DEFAULT_PERMS` pair
ends up in the permission table with its canonical category. -/
theorem bootstrap_rbac_permissions_witness :
    ("dashboard:view", "Voir le dashboard") ∈ DEFAULT_PERMS ∧
      ∃ p ∈ (bootstrap_rbac true (DBState.mk [] [] [])).perms,
        p.code = "dashboard:view" ∧ p.label = "Voir le dashboard" ∧
          p.category = _category_from_code "dashboard:view" :=
  ⟨by decide, ((bootstrap_rbac_permissions (DBState.mk [] [] [])).1
      ("dashboard:view", "Voir le dashboard") (by decide)).1⟩

theorem foldl_fixed {α β : Type} (f : β → α → β) (b : β) (l : List α)
    (h : ∀ x ∈ l, f b x = b) : l.foldl f b = b := by
  induction l with
  | nil => rfl
  | cons x xs ih =>
    rw [List.foldl_cons, h x (List.mem_cons_self x xs)]
    exact ih (fun y hy => h y (List.mem_cons_of_mem x hy))

theorem perm_update_eq_self (p : Permission) (cl : String × String)
    (hl : p.label = cl.2) (hc : p.category = _category_from_code cl.1) :
    ({ p with label := cl.2, category := _category_from_code cl.1 } : Permission) = p := by
  cases p
  simp_all

theorem bootstrap_perms_idem (perms : List Permission) :
    bootstrap_perms (bootstrap_perms perms) = bootstrap_perms perms := by
  have hmem : ∀ cl ∈ DEFAULT_PERMS,
      cl.1 ∈ (bootstrap_perms perms).map Permission.code :=
    fun cl hcl => perm_fold_mem_processed _ DEFAULT_PERMS perms (fun _ hc => hc) cl hcl
  have hcanon : ∀ cl ∈ DEFAULT_PERMS, perms_canonical cl.1 cl.2 (bootstrap_perms perms) :=
    fun cl hcl => perm_fold_canonical _ DEFAULT_PERMS perms DEFAULT_PERMS_nodup
      (fun cl' _ hnc => not_contains_of_no_code perms cl'.1 hnc) cl hcl
  show DEFAULT_PERMS.foldl (perm_step ((bootstrap_perms perms).map Permission.code))
      (bootstrap_perms perms) = bootstrap_perms perms
  apply foldl_fixed
  intro cl hcl
  unfold perm_step
  rw [if_pos (by simpa using hmem cl hcl)]
  have hid : ∀ p ∈ bootstrap_perms perms,
      (if p.code = cl.1 then
        { p with label := cl.2, category := _category_from_code cl.1 } else p) = p := by
    intro p hp
    by_cases hpc : p.code = cl.1
    · rw [if_pos hpc]
      obtain ⟨hl, hcat⟩ := hcanon cl hcl p hp hpc
      exact perm_update_eq_self p cl hl hcat
    · rw [if_neg hpc]
  exact (List.map_congr_left hid).trans (List.map_id _)

/-! ## Lemmas on the roles phase of `bootstrap_rbac` -/

theorem update_first_find_same (c : String) (f : Role → Role)
    (hf : ∀ r, (f r).code = r.code) (roles : List Role) :
    (update_first c f roles).find? (fun x => x.code = c) =
      (roles.find? (fun x => x.code = c)).map f := by
  induction roles with
  | nil => rfl
  | cons r rs ih =>
    unfold update_first
    by_cases hr : r.code = c
    · rw [if_pos hr]
      rw [List.find?_cons_of_pos _ (by simp [hf r, hr]),
        List.find?_cons_of_pos _ (by simp [hr])]
      rfl
    · rw [if_neg hr]
      rw [List.find?_cons_of_neg _ (by simp [hr]),
        List.find?_cons_of_neg _ (by simp [hr]), ih]

theorem update_first_find_other (c cOther : String) (f : Role → Role)
    (hf : ∀ r, (f r).code = r.code) (hne : cOther ≠ c) (roles : List Role) :
    (update_first cOther f roles).find? (fun x => x.code = c) =
      roles.find? (fun x => x.code = c) := by
  induction roles with
  | nil => rfl
  | cons r rs ih =>
    unfold update_first
    by_cases hr : r.code = cOther
    · rw [if_pos hr]
      rw [List.find?_cons_of_neg _ (by simp [hf r, hr]; exact hne),
        List.find?_cons_of_neg _ (by simp [hr]; exact hne)]
    · rw [if_neg hr]
      by_cases hrc : r.code = c
      · rw [List.find?_cons_of_pos _ (by simp [hrc]),
          List.find?_cons_of_pos _ (by simp [hrc])]
      · rw [List.find?_cons_of_neg _ (by simp [hrc]),
          List.find?_cons_of_neg _ (by simp [hrc]), ih]

theorem update_first_mem_code (c : String) (f : Role → Role)
    (hf : ∀ r, (f r).code = r.code) (roles : List Role) :
    ∀ r0 ∈ update_first c f roles, ∃ r1 ∈ roles, r0.code = r1.code := by
  induction roles with
  | nil => intro r0 h; cases h
  | cons r rs ih =>
    intro r0 h
    unfold update_first at h
    by_cases hr : r.code = c
    · rw [if_pos hr] at h
      rcases List.mem_cons.mp h with rfl | hm
      · exact ⟨r, List.mem_cons_self r rs, hf r⟩
      · exact ⟨r0, List.mem_cons_of_mem r hm, rfl⟩
    · rw [if_neg hr] at h
      rcases List.mem_cons.mp h with rfl | hm
      · exact ⟨r0, List.mem_cons_self r0 rs, rfl⟩
      · obtain ⟨r1, hr1, he⟩ := ih r0 hm
        exact ⟨r1, List.mem_cons_of_mem r hr1, he⟩

theorem role_step_mem_code (pc : List String) (acc : List Role)
    (t0 : String × List String) :
    ∀ r0 ∈ role_step pc acc t0,
      r0.code = t0.1 ∨ ∃ r1 ∈ acc, r0.code = r1.code := by
  intro r0 h
  unfold role_step at h
  by_cases ha : acc.any (fun r => r.code = t0.1)
  · rw [if_pos ha] at h
    obtain ⟨r1, hr1, he⟩ := update_first_mem_code t0.1
      (fun r => { r with permissions := t0.2.filter (fun c => pc.contains c) })
      (fun r => rfl) acc r0 h
    exact Or.inr ⟨r1, hr1, he⟩
  · rw [if_neg ha] at h
    rcases List.mem_append.mp h with hm | hm
    · exact Or.inr ⟨r0, hm, rfl⟩
    · rcases List.mem_singleton.mp hm with rfl
      exact Or.inl rfl

theorem role_step_find_other (pc : List String) (acc : List Role)
    (tpl : String × List String) (c : String) (hne : tpl.1 ≠ c) :
    (role_step pc acc tpl).find? (fun x => x.code = c) =
      acc.find? (fun x => x.code = c) := by
  unfold role_step
  by_cases ha : acc.any (fun r => r.code = tpl.1)
  · rw [if_pos ha]
    exact update_first_find_other c tpl.1
      (fun r => { r with permissions := tpl.2.filter (fun c => pc.contains c) })
      (fun r => rfl) hne acc
  · rw [if_neg ha]
    rw [List.find?_append]
    have hsing : ([Role.mk tpl.1 tpl.1
        (tpl.2.filter (fun c => pc.contains c))].find?
          (fun x => x.code = c)) = none := by
      rw [List.find?_cons_of_neg _ (by simpa using hne), List.find?_nil]
    rw [hsing, Option.or_none]

theorem role_fold_find_other (pc : List String)
    (tpls : List (String × List String)) (acc : List Role) (c : String)
    (h : ∀ t ∈ tpls, t.1 ≠ c) :
    (tpls.foldl (role_step pc) acc).find? (fun x => x.code = c) =
      acc.find? (fun x => x.code = c) := by
  induction tpls generalizing acc with
  | nil => rfl
  | cons t0 rest ih =>
    rw [List.foldl_cons, ih _ (fun t ht => h t (List.mem_cons_of_mem t0 ht))]
    exact role_step_find_other pc acc t0 c (h t0 (List.mem_cons_self t0 rest))

theorem role_step_establishes (pc : List String) (acc : List Role)
    (tpl : String × List String) :
    ∃ r, (role_step pc acc tpl).find? (fun x => x.code = tpl.1) = some r ∧
      r.permissions = tpl.2.filter (fun c => pc.contains c) ∧
      ((∀ r0 ∈ acc, r0.code ≠ tpl.1) → r.label = tpl.1) := by
  unfold role_step
  by_cases ha : acc.any (fun r => r.code = tpl.1)
  · rw [if_pos ha]
    cases hr0 : acc.find? (fun x => x.code = tpl.1) with
    | none =>
      exfalso
      rcases List.any_eq_true.mp ha with ⟨x, hx, hpx⟩
      exact (List.find?_eq_none.mp hr0 x hx) hpx
    | some r0 =>
      refine ⟨{ r0 with permissions := tpl.2.filter (fun c => pc.contains c) }, ?_, rfl, ?_⟩
      · rw [update_first_find_same tpl.1
          (fun r => { r with permissions := tpl.2.filter (fun c => pc.contains c) })
          (fun r => rfl) acc, hr0]
        rfl
      · intro hno
        have hmem := List.mem_of_find?_eq_some hr0
        have hcode : r0.code = tpl.1 := by simpa using List.find?_some hr0
        exact absurd hcode (hno r0 hmem)
  · rw [if_neg ha]
    have hnone : acc.find? (fun x => x.code = tpl.1) = none := by
      rw [List.find?_eq_none]
      intro x hx hpx
      exact ha (List.any_eq_true.mpr ⟨x, hx, hpx⟩)
    refine ⟨Role.mk tpl.1 tpl.1 (tpl.2.filter (fun c => pc.contains c)), ?_, rfl,
      fun _ => rfl⟩
    rw [List.find?_append, hnone, Option.none_or]
    rw [List.find?_cons_of_pos _ (by simp)]

theorem role_fold_canonical (pc : List String)
    (tpls : List (String × List String)) (acc : List Role)
    (hnd : (tpls.map Prod.fst).Nodup) :
    ∀ tpl ∈ tpls, ∃ r,
      (tpls.foldl (role_step pc) acc).find? (fun x => x.code = tpl.1) = some r ∧
      r.permissions = tpl.2.filter (fun c => pc.contains c) ∧
      ((∀ r0 ∈ acc, r0.code ≠ tpl.1) → r.label = tpl.1) := by
  induction tpls generalizing acc with
  | nil => simp
  | cons t0 rest ih =>
    rw [List.map_cons] at hnd
    have hnd2 := List.nodup_cons.mp hnd
    have hrestne : ∀ t ∈ rest, t.1 ≠ t0.1 := by
      intro t ht heq
      exact hnd2.1 (heq ▸ List.mem_map_of_mem Prod.fst ht)
    intro tpl htpl
    rcases List.mem_cons.mp htpl with rfl | hmem
    · obtain ⟨r, hr, hperm, hlab⟩ := role_step_establishes pc acc tpl
      refine ⟨r, ?_, hperm, hlab⟩
      rw [List.foldl_cons, role_fold_find_other pc rest _ tpl.1 hrestne]
      exact hr
    · obtain ⟨r, hr, hperm, hlab⟩ := ih _ hnd2.2 tpl hmem
      refine ⟨r, by rw [List.foldl_cons]; exact hr, hperm, ?_⟩
      intro hno
      apply hlab
      intro r0 hr0
      rcases role_step_mem_code pc acc t0 r0 hr0 with hc | ⟨r1, hr1, he⟩
      · rw [hc]
        exact Ne.symm (hrestne tpl hmem)
      · rw [he]
        exact hno r1 hr1

theorem ROLE_TEMPLATES_nodup : (ROLE_TEMPLATES.map Prod.fst).Nodup := by decide

/-- Claim C4: after a successful `bootstrap_rbac`, the four template roles
exist (created with label equal to their code when absent), each role's
permission list is overwritten to exactly its template codes intersected
with the codes present in the permission table, and in particular the
`direction` role holds every `DEFAULT_PERMS` code. -/
theorem bootstrap_rbac_roles (st : DBState) :
    ROLE_TEMPLATES.map Prod.fst =
      ["admin_tech", "direction", "finance", "responsable_secteur"]
    ∧ (∀ tpl ∈ ROLE_TEMPLATES, ∃ r,
        (bootstrap_rbac true st).roles.find? (fun x => x.code = tpl.1) = some r ∧
        (∀ c, c ∈ r.permissions ↔
          c ∈ tpl.2 ∧ c ∈ (bootstrap_rbac true st).perms.map Permission.code) ∧
        ((∀ r0 ∈ st.roles, r0.code ≠ tpl.1) → r.label = tpl.1))
    ∧ ∀ cl ∈ DEFAULT_PERMS, ∃ r,
        (bootstrap_rbac true st).roles.find? (fun x => x.code = "direction") = some r ∧
        cl.1 ∈ r.permissions := by
  have hroles : (bootstrap_rbac true st).roles =
      ROLE_TEMPLATES.foldl
        (role_step ((bootstrap_perms st.perms).map Permission.code)) st.roles := rfl
  have hperms : (bootstrap_rbac true st).perms = bootstrap_perms st.perms := rfl
  refine ⟨rfl, ?_, ?_⟩
  · intro tpl htpl
    obtain ⟨r, hr, hperm, hlab⟩ := role_fold_canonical
      ((bootstrap_perms st.perms).map Permission.code) ROLE_TEMPLATES st.roles
      ROLE_TEMPLATES_nodup tpl htpl
    refine ⟨r, by rw [hroles]; exact hr, ?_, hlab⟩
    intro c
    rw [hperm, hperms, List.mem_filter]
    simp
  · intro cl hcl
    have hdir : ("direction", DEFAULT_PERMS.map Prod.fst) ∈ ROLE_TEMPLATES := by
      simp [ROLE_TEMPLATES]
    obtain ⟨r, hr, hperm, _⟩ := role_fold_canonical
      ((bootstrap_perms st.perms).map Permission.code) ROLE_TEMPLATES st.roles
      ROLE_TEMPLATES_nodup ("direction", DEFAULT_PERMS.map Prod.fst) hdir
    refine ⟨r, by rw [hroles]; exact hr, ?_⟩
    rw [hperm, List.mem_filter]
    refine ⟨List.mem_map_of_mem Prod.fst hcl, ?_⟩
    simpa using perm_fold_mem_processed (st.perms.map Permission.code)
      DEFAULT_PERMS st.perms (fun c hc => hc) cl hcl

/-- Witness for C4: on the empty database the `admin_tech` role is created
with its template permissions. -/
theorem bootstrap_rbac_roles_witness :
    ("admin_tech", ["dashboard:view", "admin:users", "admin:rbac"]) ∈ ROLE_TEMPLATES ∧
      ∃ r, (bootstrap_rbac true (DBState.mk [] [] [])).roles.find?
          (fun x => x.code = "admin_tech") = some r ∧
        (∀ c, c ∈ r.permissions ↔
          c ∈ ["dashboard:view", "admin:users", "admin:rbac"] ∧
            c ∈ (bootstrap_rbac true (DBState.mk [] [] [])).perms.map Permission.code) ∧
        ((∀ r0 ∈ (DBState.mk [] [] [] : DBState).roles, r0.code ≠ "admin_tech") →
          r.label = "admin_tech") :=
  ⟨by decide, (bootstrap_rbac_roles (DBState.mk [] [] [])).2.1
      ("admin_tech", ["dashboard:view", "admin:users", "admin:rbac"]) (by decide)⟩

theorem update_first_id (c : String) (f : Role → Role) (roles : List Role)
    (h : ∀ r, roles.find? (fun x => x.code = c) = some r → f r = r) :
    update_first c f roles = roles := by
  induction roles with
  | nil => rfl
  | cons r rs ih =>
    unfold update_first
    by_cases hr : r.code = c
    · rw [if_pos hr, h r (List.find?_cons_of_pos _ (by simp [hr]))]
    · rw [if_neg hr]
      congr 1
      apply ih
      intro r1 hr1
      exact h r1 (by rw [List.find?_cons_of_neg _ (by simp [hr])]; exact hr1)

theorem role_update_eq_self (r : Role) (ps : List String)
    (h : r.permissions = ps) : ({ r with permissions := ps } : Role) = r := by
  cases r
  simp_all

theorem bootstrap_roles_idem (pc : List String) (roles : List Role) :
    bootstrap_roles pc (bootstrap_roles pc roles) = bootstrap_roles pc roles := by
  show ROLE_TEMPLATES.foldl (role_step pc) (bootstrap_roles pc roles) =
    bootstrap_roles pc roles
  apply foldl_fixed
  intro tpl htpl
  obtain ⟨r, hfind, hperm, _⟩ := role_fold_canonical pc ROLE_TEMPLATES roles
    ROLE_TEMPLATES_nodup tpl htpl
  have hfind2 : (bootstrap_roles pc roles).find? (fun x => x.code = tpl.1) = some r :=
    hfind
  unfold role_step
  have hrcode : r.code = tpl.1 := by simpa using List.find?_some hfind2
  have hany : ((bootstrap_roles pc roles).any (fun x => x.code = tpl.1)) = true :=
    List.any_eq_true.mpr ⟨r, List.mem_of_find?_eq_some hfind2, by simp [hrcode]⟩
  rw [if_pos hany]
  apply update_first_id
  intro r1 hr1
  rw [hfind2] at hr1
  injection hr1 with h12
  subst h12
  exact role_update_eq_self r _ hperm

/-! ## Lemmas on the user-synchronisation phase -/

theorem sync_user_role_field (rcs : List String) (u : PyUser) :
    (sync_user rcs u).role = u.role := by
  unfold sync_user
  by_cases h : !u.has_roles_attr
  · rw [if_pos h]
  · rw [if_neg h]
    by_cases hc : (rcs.contains (legacy_target u) &&
        !u.roles.contains (legacy_target u)) = true
    · rw [if_pos hc]
    · rw [if_neg hc]

theorem legacy_target_congr (u v : PyUser) (h : u.role = v.role) :
    legacy_target u = legacy_target v := by
  unfold legacy_target
  rw [h]

theorem sync_user_idem (rcs : List String) (u : PyUser) :
    sync_user rcs (sync_user rcs u) = sync_user rcs u := by
  by_cases h : u.has_roles_attr
  · by_cases hc : (rcs.contains (legacy_target u) &&
        !u.roles.contains (legacy_target u)) = true
    · have h1 : sync_user rcs u = { u with roles := u.roles ++ [legacy_target u] } := by
        unfold sync_user
        rw [if_neg (by simp [h]), if_pos hc]
      have htar : legacy_target { u with roles := u.roles ++ [legacy_target u] } =
          legacy_target u := legacy_target_congr _ _ rfl
      rw [h1]
      unfold sync_user
      rw [if_neg (by simp [h])]
      rw [if_neg (by simp [htar])]
    · have h1 : sync_user rcs u = u := by
        unfold sync_user
        rw [if_neg (by simp [h]), if_neg hc]
      rw [h1, h1]
  · have h1 : sync_user rcs u = u := by
      unfold sync_user
      rw [if_pos (by simp [h])]
    rw [h1, h1]

/-- Claim C5: the legacy synchronisation phase of `bootstrap_rbac` maps
`sync_user` over every user; `sync_user` skips users without a `roles`
attribute, never removes a role, and appends the target role exactly when it
exists and is not yet attached; and the target is computed by substituting
`responsable_secteur` for a missing or empty legacy role, stripping, and
applying the legacy map (identity outside its keys). -/
theorem bootstrap_rbac_legacy_sync (st : DBState) :
    ((bootstrap_rbac true st).users =
      st.users.map (sync_user ((bootstrap_rbac true st).roles.map Role.code)))
    ∧ (∀ (rcs : List String) (u : PyUser),
        (u.has_roles_attr = false → sync_user rcs u = u)
        ∧ (∀ r ∈ u.roles, r ∈ (sync_user rcs u).roles)
        ∧ (u.has_roles_attr = true → legacy_target u ∈ rcs →
            legacy_target u ∉ u.roles →
            (sync_user rcs u).roles = u.roles ++ [legacy_target u])
        ∧ (u.has_roles_attr = true →
            (legacy_target u ∉ rcs ∨ legacy_target u ∈ u.roles) →
            sync_user rcs u = u))
    ∧ (∀ u : PyUser, (u.role = none ∨ u.role = some "") →
        legacy_target u = "responsable_secteur")
    ∧ legacy_map_get "directrice" = "direction"
    ∧ legacy_map_get "direction" = "direction"
    ∧ legacy_map_get "financiere" = "finance"
    ∧ legacy_map_get "financière" = "finance"
    ∧ legacy_map_get "finance" = "finance"
    ∧ legacy_map_get "responsable_secteur" = "responsable_secteur"
    ∧ legacy_map_get "admin_tech" = "admin_tech"
    ∧ (∀ s : String, s ∉ legacy_map.map Prod.fst → legacy_map_get s = s) := by
  refine ⟨rfl, ?_, ?_, by decide, by decide, by decide, by decide, by decide,
    by decide, by decide, ?_⟩
  · intro rcs u
    refine ⟨?_, ?_, ?_, ?_⟩
    · intro h
      unfold sync_user
      rw [if_pos (by simp [h])]
    · intro r hr
      unfold sync_user
      by_cases h : !u.has_roles_attr
      · rw [if_pos h]
        exact hr
      · rw [if_neg h]
        by_cases hc : (rcs.contains (legacy_target u) &&
            !u.roles.contains (legacy_target u)) = true
        · rw [if_pos hc]
          exact List.mem_append_left _ hr
        · rw [if_neg hc]
          exact hr
    · intro h hin hnin
      unfold sync_user
      rw [if_neg (by simp [h]), if_pos (by simp [hin, hnin])]
    · intro h hor
      have hcond : (rcs.contains (legacy_target u) &&
          !u.roles.contains (legacy_target u)) = false := by
        rcases hor with h1 | h2
        · simp [h1]
        · simp [h2]
      unfold sync_user
      rw [if_neg (by simp [h]), if_neg (by rw [hcond]; simp)]
  · intro u hu
    unfold legacy_target
    rcases hu with h | h <;> rw [h] <;> rfl
  · intro s hs
    unfold legacy_map_get
    have hnone : legacy_map.find? (fun kv => kv.1 = s) = none := by
      rw [List.find?_eq_none]
      intro kv hkv
      simp only [decide_eq_true_eq]
      intro he
      exact hs (he ▸ List.mem_map_of_mem Prod.fst hkv)
    rw [hnone]

/-- Witness for C5: a user object lacking the `roles` attribute is skipped. -/
theorem bootstrap_rbac_legacy_sync_witness :
    (PyUser.mk (some "directrice") false []).has_roles_attr = false ∧
      sync_user ["direction"] (PyUser.mk (some "directrice") false []) =
        PyUser.mk (some "directrice") false [] :=
  ⟨rfl, ((bootstrap_rbac_legacy_sync (DBState.mk [] [] [])).2.1 ["direction"]
      (PyUser.mk (some "directrice") false [])).1 rfl⟩

/-- Claim C9: `bootstrap_rbac` is idempotent: a second run on the state the
first run produced changes nothing — same permission rows, same
role-to-permission assignments, same user-to-role assignments. -/
theorem bootstrap_rbac_idem (st : DBState) :
    bootstrap_rbac true (bootstrap_rbac true st) = bootstrap_rbac true st := by
  have hmk : ∀ s : DBState, bootstrap_rbac true s =
      DBState.mk (bootstrap_perms s.perms)
        (bootstrap_roles ((bootstrap_perms s.perms).map Permission.code) s.roles)
        (s.users.map (sync_user
          ((bootstrap_roles ((bootstrap_perms s.perms).map Permission.code)
            s.roles).map Role.code))) := fun s => rfl
  rw [hmk st, hmk]
  simp only
  rw [bootstrap_perms_idem, bootstrap_roles_idem]
  congr 1
  rw [List.map_map]
  apply List.map_congr_left
  intro u hu
  exact sync_user_idem _ u

/-! ## Lemmas on `ensure_schema` -/

/-- The execution oracle of a run in which no statement raises and the
inspector works. -/
def no_fail : String → Bool := fun _ => false

/-- Claim C7: each of the seven migration groups of `ensure_schema` sits in
its own try/except with `db.session.rollback()`: a group whose execution
raises leaves the schema exactly as it was when the group started, the
exception does not propagate, and the remaining groups still run from that
schema; a successful group passes its new schema on. -/
theorem ensure_schema_group_isolation :
    mig_groups.length = 7
    ∧ (∀ ef ifail dialect s,
        ensure_schema ef ifail dialect s = run_groups ef ifail dialect s mig_groups)
    ∧ (∀ ef ifail dialect s g gs l,
        run_steps ef ifail dialect s g = .error l →
        run_groups ef ifail dialect s (g :: gs) =
          ((run_groups ef ifail dialect s gs).1,
            l ++ (run_groups ef ifail dialect s gs).2))
    ∧ (∀ ef ifail dialect s g gs r,
        run_steps ef ifail dialect s g = .ok r →
        run_groups ef ifail dialect s (g :: gs) =
          ((run_groups ef ifail dialect r.1 gs).1,
            r.2 ++ (run_groups ef ifail dialect r.1 gs).2)) := by
  refine ⟨rfl, fun _ _ _ _ => rfl, ?_, ?_⟩
  · intro ef ifail d s g gs l h
    simp only [run_groups, run_group, h]
  · intro ef ifail d s g gs r h
    simp only [run_groups, run_group, h]

/-- Witness for C7: with an oracle that makes every statement raise, a
one-statement group fails, and the run continues on the untouched schema. -/
theorem ensure_schema_group_isolation_witness :
    run_steps (fun _ => true) (fun _ => false) "sqlite" []
        [MigStep.createIndex "t" "X" "Y"] = .error ["X"] ∧
      run_groups (fun _ => true) (fun _ => false) "sqlite" []
          ([MigStep.createIndex "t" "X" "Y"] :: []) =
        ((run_groups (fun _ => true) (fun _ => false) "sqlite" [] []).1,
          ["X"] ++ (run_groups (fun _ => true) (fun _ => false) "sqlite" [] []).2) :=
  ⟨rfl, ensure_schema_group_isolation.2.2.1 (fun _ => true) (fun _ => false)
      "sqlite" [] [MigStep.createIndex "t" "X" "Y"] [] ["X"] rfl⟩

theorem hasTableRaw_addCol (s : Schema) (t c t' : String) :
    hasTableRaw (addColToTable s t c) t' = hasTableRaw s t' := by
  unfold hasTableRaw addColToTable
  induction s with
  | nil => rfl
  | cons p ps ih =>
    rw [List.map_cons, List.any_cons, List.any_cons, ih]
    by_cases hp : p.1 = t
    · rw [if_pos hp]
    · rw [if_neg hp]

theorem get_cols_no_fail (s : Schema) (t : String) :
    get_cols no_fail s t =
      match s.find? (fun p => p.1 = t) with
      | none => []
      | some p => p.2 := rfl

theorem find?_addCol (s : Schema) (t c t' : String) :
    (addColToTable s t c).find? (fun p => p.1 = t') =
      (s.find? (fun p => p.1 = t')).map
        (fun p => if p.1 = t then (p.1, p.2 ++ [c]) else p) := by
  unfold addColToTable
  have hpred : ((fun p : String × List String => decide (p.1 = t')) ∘
      (fun p => if p.1 = t then (p.1, p.2 ++ [c]) else p)) =
      (fun p : String × List String => decide (p.1 = t')) := by
    funext p
    by_cases hp : p.1 = t <;> simp [hp]
  rw [List.find?_map, hpred]

theorem get_cols_addCol (s : Schema) (t c t' : String) :
    get_cols no_fail (addColToTable s t c) t' =
      match s.find? (fun p => p.1 = t') with
      | none => []
      | some p => if p.1 = t then p.2 ++ [c] else p.2 := by
  rw [get_cols_no_fail, find?_addCol]
  cases s.find? (fun p => p.1 = t') with
  | none => rfl
  | some p =>
    by_cases hp : p.1 = t
    · simp [hp]
    · simp [hp]

theorem get_cols_addCol_mem (s : Schema) (t c t' c' : String)
    (h : c' ∈ get_cols no_fail s t') :
    c' ∈ get_cols no_fail (addColToTable s t c) t' := by
  rw [get_cols_no_fail] at h
  rw [get_cols_addCol]
  cases hf : s.find? (fun p => p.1 = t') with
  | none =>
    rw [hf] at h
    cases h
  | some p =>
    rw [hf] at h
    dsimp only at h ⊢
    by_cases hp : p.1 = t
    · rw [if_pos hp]
      exact List.mem_append_left _ h
    · rw [if_neg hp]
      exact h

theorem get_cols_addCol_self (s : Schema) (t c : String)
    (ht : hasTableRaw s t = true) :
    c ∈ get_cols no_fail (addColToTable s t c) t := by
  rw [get_cols_addCol]
  cases hf : s.find? (fun p => p.1 = t) with
  | none =>
    exfalso
    rcases List.any_eq_true.mp ht with ⟨p, hp, hpp⟩
    exact (List.find?_eq_none.mp hf p hp) hpp
  | some p =>
    have hp1 : p.1 = t := by simpa using List.find?_some hf
    dsimp only
    rw [if_pos hp1]
    exact List.mem_append_right _ (List.mem_singleton_self c)

theorem run_step_ok (d : String) (s : Schema) (st : MigStep)
    (ht : ∀ t, step_table st = some t → hasTableRaw s t = true) :
    ∃ s1 log, run_step no_fail no_fail d s st = .ok (s1, log) ∧
      (∀ t, hasTableRaw s1 t = hasTableRaw s t) ∧
      (∀ t c, c ∈ get_cols no_fail s t → c ∈ get_cols no_fail s1 t) ∧
      (∀ spec, st = MigStep.addCol spec →
        spec.col ∈ get_cols no_fail s1 spec.table) := by
  cases st with
  | addCol spec =>
    have htt : hasTableRaw s spec.table = true := ht spec.table rfl
    by_cases hc : (get_cols no_fail s spec.table).contains spec.col = true
    · refine ⟨s, [], ?_, fun t => rfl, fun t c h => h, ?_⟩
      · show add_col no_fail no_fail d s spec = .ok (s, [])
        unfold add_col
        rw [if_pos hc]
      · intro spec' hspec
        injection hspec with h1
        subst h1
        simpa using hc
    · refine ⟨addColToTable s spec.table spec.col,
        [if d = "sqlite" then spec.sqlSqlite else spec.sqlPg], ?_,
        fun t => hasTableRaw_addCol s spec.table spec.col t,
        fun t c h => get_cols_addCol_mem s spec.table spec.col t c h, ?_⟩
      · show add_col no_fail no_fail d s spec = _
        unfold add_col
        rw [if_neg hc, if_neg (by simp [no_fail, htt])]
      · intro spec' hspec
        injection hspec with h1
        subst h1
        exact get_cols_addCol_self s spec.table spec.col htt
  | createIndex t sqlS sqlP =>
    have htt : hasTableRaw s t = true := ht t rfl
    refine ⟨s, [if d = "sqlite" then sqlS else sqlP], ?_, fun t => rfl,
      fun t c h => h, fun spec hspec => by cases hspec⟩
    show create_index no_fail d s t sqlS sqlP = _
    unfold create_index
    rw [if_neg (by simp [no_fail, htt])]
  | pgDropNotNull sql =>
    by_cases hd : d = "postgresql"
    · exact ⟨s, [sql], by simp [run_step, hd], fun t => rfl, fun t c h => h,
        fun spec hspec => by cases hspec⟩
    · exact ⟨s, [], by simp [run_step, hd], fun t => rfl, fun t c h => h,
        fun spec hspec => by cases hspec⟩

theorem run_steps_ok (d : String) (steps : List MigStep) (s : Schema)
    (ht : ∀ st ∈ steps, ∀ t, step_table st = some t → hasTableRaw s t = true) :
    ∃ s1 log, run_steps no_fail no_fail d s steps = .ok (s1, log) ∧
      (∀ t, hasTableRaw s1 t = hasTableRaw s t) ∧
      (∀ t c, c ∈ get_cols no_fail s t → c ∈ get_cols no_fail s1 t) ∧
      (∀ spec, MigStep.addCol spec ∈ steps →
        spec.col ∈ get_cols no_fail s1 spec.table) := by
  induction steps generalizing s with
  | nil => exact ⟨s, [], rfl, fun t => rfl, fun t c h => h, by simp⟩
  | cons st rest ih =>
    obtain ⟨s1, log, hrun, htab, hcols, hest⟩ := run_step_ok d s st
      (fun t h => ht st (List.mem_cons_self st rest) t h)
    obtain ⟨s2, log2, hrun2, htab2, hcols2, hest2⟩ := ih s1
      (fun st' hst' t h => by
        rw [htab t]
        exact ht st' (List.mem_cons_of_mem st hst') t h)
    refine ⟨s2, log ++ log2, ?_, fun t => (htab2 t).trans (htab t),
      fun t c h => hcols2 t c (hcols t c h), ?_⟩
    · simp only [run_steps, hrun, hrun2]
    · intro spec hspec
      rcases List.mem_cons.mp hspec with heq | hm
      · exact hcols2 _ _ (hest spec heq.symm)
      · exact hest2 spec hm

theorem run_groups_ok (d : String) (gs : List (List MigStep)) (s : Schema)
    (ht : ∀ g ∈ gs, ∀ st ∈ g, ∀ t, step_table st = some t →
      hasTableRaw s t = true) :
    ∃ s1 log, run_groups no_fail no_fail d s gs = (s1, log) ∧
      (∀ t, hasTableRaw s1 t = hasTableRaw s t) ∧
      (∀ t c, c ∈ get_cols no_fail s t → c ∈ get_cols no_fail s1 t) ∧
      (∀ g ∈ gs, ∀ spec, MigStep.addCol spec ∈ g →
        spec.col ∈ get_cols no_fail s1 spec.table) := by
  induction gs generalizing s with
  | nil => exact ⟨s, [], rfl, fun t => rfl, fun t c h => h, by simp⟩
  | cons g rest ih =>
    obtain ⟨s1, log, hrun, htab, hcols, hest⟩ := run_steps_ok d g s
      (fun st hst t h => ht g (List.mem_cons_self g rest) st hst t h)
    obtain ⟨s2, log2, hrun2, htab2, hcols2, hest2⟩ := ih s1
      (fun g' hg' st hst t h => by
        rw [htab t]
        exact ht g' (List.mem_cons_of_mem g hg') st hst t h)
    refine ⟨s2, log ++ log2, ?_, fun t => (htab2 t).trans (htab t),
      fun t c h => hcols2 t c (hcols t c h), ?_⟩
    · simp only [run_groups, run_group, hrun, hrun2]
    · intro g' hg' spec hspec
      rcases List.mem_cons.mp hg' with heq | hm
      · exact hcols2 _ _ (hest spec (heq ▸ hspec))
      · exact hest2 g' hm spec hspec

theorem run_steps_done (d : String) (steps : List MigStep) (s : Schema)
    (ht : ∀ st ∈ steps, ∀ t, step_table st = some t → hasTableRaw s t = true)
    (hdone : ∀ spec, MigStep.addCol spec ∈ steps →
      spec.col ∈ get_cols no_fail s spec.table) :
    run_steps no_fail no_fail d s steps =
      .ok (s, (steps.map (second_log d)).flatten) := by
  induction steps with
  | nil => rfl
  | cons st rest ih =>
    have hrest := ih
      (fun st' h t ht' => ht st' (List.mem_cons_of_mem st h) t ht')
      (fun spec h => hdone spec (List.mem_cons_of_mem st h))
    cases st with
    | addCol spec =>
      have hc : (get_cols no_fail s spec.table).contains spec.col = true := by
        simpa using hdone spec (List.mem_cons_self _ rest)
      have hstep : run_step no_fail no_fail d s (MigStep.addCol spec) =
          .ok (s, []) := by
        show add_col no_fail no_fail d s spec = .ok (s, [])
        unfold add_col
        rw [if_pos hc]
      simp only [run_steps, hstep, hrest]
      simp [second_log]
    | createIndex t sqlS sqlP =>
      have htt : hasTableRaw s t = true := ht _ (List.mem_cons_self _ rest) t rfl
      have hstep : run_step no_fail no_fail d s (MigStep.createIndex t sqlS sqlP) =
          .ok (s, [if d = "sqlite" then sqlS else sqlP]) := by
        show create_index no_fail d s t sqlS sqlP = _
        unfold create_index
        rw [if_neg (by simp [no_fail, htt])]
      simp only [run_steps, hstep, hrest]
      simp [second_log]
    | pgDropNotNull sql =>
      by_cases hd : d = "postgresql"
      · have hstep : run_step no_fail no_fail d s (MigStep.pgDropNotNull sql) =
            .ok (s, [sql]) := by simp [run_step, hd]
        simp only [run_steps, hstep, hrest]
        simp [second_log, hd]
      · have hstep : run_step no_fail no_fail d s (MigStep.pgDropNotNull sql) =
            .ok (s, []) := by simp [run_step, hd]
        simp only [run_steps, hstep, hrest]
        simp [second_log, hd]

theorem run_groups_done (d : String) (gs : List (List MigStep)) (s : Schema)
    (ht : ∀ g ∈ gs, ∀ st ∈ g, ∀ t, step_table st = some t →
      hasTableRaw s t = true)
    (hdone : ∀ g ∈ gs, ∀ spec, MigStep.addCol spec ∈ g →
      spec.col ∈ get_cols no_fail s spec.table) :
    run_groups no_fail no_fail d s gs =
      (s, (gs.map (fun g => (g.map (second_log d)).flatten)).flatten) := by
  induction gs with
  | nil => rfl
  | cons g rest ih =>
    have hg := run_steps_done d g s
      (fun st hst t h => ht g (List.mem_cons_self g rest) st hst t h)
      (fun spec hspec => hdone g (List.mem_cons_self g rest) spec hspec)
    have hrest := ih
      (fun g' hg' st hst t h => ht g' (List.mem_cons_of_mem g hg') st hst t h)
      (fun g' hg' spec hspec => hdone g' (List.mem_cons_of_mem g hg') spec hspec)
    simp only [run_groups, run_group, hg, hrest]
    simp

theorem mig_steps_tables_listed :
    ∀ g ∈ mig_groups, ∀ st ∈ g, step_table_listed st = true := by decide

/-- Claim C6: `add_col` is conditional: it returns without touching anything
when the column is already among the inspected columns (missing table or
inspection failure giving the empty set), and executes exactly the dialect
variant of its `ALTER TABLE` when the column is absent; consequently a second
run of `ensure_schema` after a fully successful first run leaves the schema
unchanged and issues no statement mentioning `ADD COLUMN`. -/
theorem add_col_conditional :
    (∀ ef ifail dialect s spec,
        (get_cols ifail s spec.table).contains spec.col = true →
        add_col ef ifail dialect s spec = .ok (s, []))
    ∧ (∀ ef ifail dialect s spec,
        ¬ (get_cols ifail s spec.table).contains spec.col = true →
        (add_col ef ifail dialect s spec =
            .error [if dialect = "sqlite" then spec.sqlSqlite else spec.sqlPg]
          ∨ add_col ef ifail dialect s spec =
            .ok (addColToTable s spec.table spec.col,
              [if dialect = "sqlite" then spec.sqlSqlite else spec.sqlPg])))
    ∧ (∀ ifail (s : Schema) t, ifail t = true → get_cols ifail s t = [])
    ∧ (∀ ifail (s : Schema) t, hasTableRaw s t = false → get_cols ifail s t = [])
    ∧ ∀ dialect s, (∀ t ∈ mig_tables, hasTableRaw s t = true) →
        ensure_schema no_fail no_fail dialect
            (ensure_schema no_fail no_fail dialect s).1 =
          ((ensure_schema no_fail no_fail dialect s).1, ensure_log2 dialect)
        ∧ ∀ sql ∈ ensure_log2 dialect, mentions_add_column sql = false := by
  refine ⟨?_, ?_, ?_, ?_, ?_⟩
  · intro ef ifail d s spec h
    unfold add_col
    rw [if_pos h]
  · intro ef ifail d s spec h
    unfold add_col
    rw [if_neg h]
    by_cases hcond : (ef (if d = "sqlite" then spec.sqlSqlite else spec.sqlPg) ||
        !hasTableRaw s spec.table) = true
    · left
      rw [if_pos hcond]
    · right
      rw [if_neg hcond]
  · intro ifail s t hfail
    unfold get_cols
    rw [if_pos hfail]
  · intro ifail s t hmiss
    unfold get_cols
    by_cases hfail : ifail t = true
    · rw [if_pos hfail]
    · rw [if_neg hfail]
      have hnone : s.find? (fun p => p.1 = t) = none := by
        rw [List.find?_eq_none]
        intro p hp hpt
        have h2 : hasTableRaw s t = true := List.any_eq_true.mpr ⟨p, hp, hpt⟩
        rw [hmiss] at h2
        cases h2
      rw [hnone]
  · intro d s h
    have hht : ∀ g ∈ mig_groups, ∀ st ∈ g, ∀ t, step_table st = some t →
        hasTableRaw s t = true := by
      intro g hg st hst t htt
      have hlisted := mig_steps_tables_listed g hg st hst
      unfold step_table_listed at hlisted
      rw [htt] at hlisted
      exact h t (by simpa using hlisted)
    obtain ⟨s1, log, hrun, htab, _, hest⟩ := run_groups_ok d mig_groups s hht
    have hfst : (ensure_schema no_fail no_fail d s).1 = s1 := by
      show (run_groups no_fail no_fail d s mig_groups).1 = s1
      rw [hrun]
    constructor
    · rw [hfst]
      show run_groups no_fail no_fail d s1 mig_groups = (s1, ensure_log2 d)
      exact run_groups_done d mig_groups s1
        (fun g hg st hst t htt => by
          rw [htab t]
          exact hht g hg st hst t htt)
        (fun g hg spec hspec => hest g hg spec hspec)
    · intro sql hsql
      by_cases hd1 : d = "sqlite"
      · subst hd1
        revert hsql
        revert sql
        decide
      · by_cases hd2 : d = "postgresql"
        · subst hd2
          revert hsql
          revert sql
          decide
        · have hlog : ensure_log2 d =
              ["CREATE UNIQUE INDEX IF NOT EXISTS idx_uq_presence_session_participant ON presence_activite(session_id, participant_id)"] := by
            simp [ensure_log2, mig_groups, mig_group1, mig_group2, mig_group3,
              mig_group4, mig_group5, mig_group6, mig_group7, second_log, hd1, hd2]
          rw [hlog] at hsql
          rcases List.mem_singleton.mp hsql with rfl
          decide

/-- Witness for C6 at a concrete schema that already holds the column. -/
theorem add_col_conditional_witness :
    (get_cols no_fail [("ligne_budget", ["nature"])] "ligne_budget").contains
        "nature" = true ∧
      add_col no_fail no_fail "sqlite" [("ligne_budget", ["nature"])]
          (ColSpec.mk "ligne_budget" "nature" "A" "B") =
        .ok ([("ligne_budget", ["nature"])], []) :=
  ⟨by decide, add_col_conditional.1 no_fail no_fail "sqlite"
      [("ligne_budget", ["nature"])]
      (ColSpec.mk "ligne_budget" "nature" "A" "B") (by decide)⟩
